import Mathlib

/-!
Shallow embedding of the aggregate (AND) grammar node of netzob
(`src/netzob/Common/Models/Vocabulary/Domain/Variables/Nodes/Agg.py`):
the `Agg` class with its `isDefined`, `read`, `write` and `buildRegex`
operations.  Collaborators that live outside this file's source
(processing tokens, the `typeCheck` decorator, `readChildren`,
`writeChildren`, `sortChildrenToRead`, `shuffleChildren`,
`resetTokenChoppedIndexes`, `notifyBoundedVariables`, `NetzobRegex`)
are modelled from the specification.  Side effects are made explicit:
operations return new token/node states together with a trace of
events (child delegations, index resets, bound-variable notifications),
and the global random source used by `shuffleChildren` becomes an
explicit list of draws.
-/

/-- Modelled from the spec: a reading token carries a success flag (`Ok`,
set false on the first unrecoverable failure), a cursor position and the
accumulated value of the traversal. -/
structure RToken where
  Ok : Bool
  position : Nat
  value : List Nat
deriving DecidableEq, Repr

/-- Modelled from the spec: a writing token carries a success flag and the
value produced so far. -/
structure WToken where
  Ok : Bool
  value : List Nat
deriving DecidableEq, Repr

/-- A present processing token is either a reading token or a writing
token; both kinds subclass the abstract processing token of the source. -/
inductive NToken where
  | rt (t : RToken)
  | wt (t : WToken)

/-- Modelled from the spec: node-side state of an aggregate variable — the
previously computed final value and the chopped-index references into the
token, both invalidated by a new write access. -/
structure NodeState where
  currentValue : Option (List Nat)
  tokenChoppedIndexes : List Nat
deriving DecidableEq, Repr

/-- The invalid-argument error (`TypeError`) raised by the operations on a
missing or wrongly-typed token. -/
inductive TErr where
  | typeError
deriving DecidableEq, Repr

/-- Observable events of one traversal: delegation of a read or write to a
child (identified by the child's id), the reset of the chopped indexes at
the start of a write, and a bound-variable notification with its event
kind and optional value argument. -/
inductive Event where
  | childRead (id : Nat)
  | childWrite (id : Nat)
  | resetIndexes
  | notify (kind : String) (value : Option (Option (List Nat)))
deriving DecidableEq, Repr

/-- Tests whether an event is a bound-variable notification. -/
def Event.isNotify : Event → Bool
  | .notify _ _ => true
  | _ => false

/-- A pattern (`NetzobRegex` in the source), characterised by the language
of byte strings it matches. -/
structure NetzobRegex where
  Matches : List Nat → Prop

/-- Modelled from the spec: the language of the ordered concatenation of a
sequence of languages — a string matches iff it splits into consecutive
parts matched by the respective languages. -/
def concatLang : List (List Nat → Prop) → List Nat → Prop
  | [], s => s = []
  | L :: Ls, s => ∃ u v, s = u ++ v ∧ L u ∧ concatLang Ls v

/-- Modelled from the spec: `NetzobRegex.buildRegexForAggregateRegexes`
(missing from src/) — the pattern builder concatenates the child patterns
in the given order. -/
def NetzobRegex.buildRegexForAggregateRegexes (regexes : List NetzobRegex) : NetzobRegex :=
  ⟨concatLang (regexes.map NetzobRegex.Matches)⟩

/-- A child of an aggregate, abstracted to the node interface the spec
requires of every variant: a defined-ness check, a read and a write
transformer on the corresponding token, a sort key used by the read-time
reordering, a derived pattern, and an id used in traces. -/
structure Child where
  id : Nat
  sortKey : Nat
  isDefinedF : NToken → Bool
  readF : RToken → RToken
  writeF : WToken → WToken
  buildRegex : NetzobRegex

/-- The aggregate node: an ordered sequence of children and the mutability
flag (the shared node state of `AbstractVariableNode`). -/
structure Agg where
  children : List Child
  mutable : Bool

/-- Modelled from the spec: `readChildren` (in `AbstractVariableNode`,
missing from src/) delegates to the children sequentially against the same
token and does not attempt the next child once the success flag has gone
false. -/
def readChildren : List Child → RToken → RToken × List Event
  | [], t => (t, [])
  | c :: cs, t =>
    if t.Ok then
      let r := readChildren cs (c.readF t)
      (r.1, Event.childRead c.id :: r.2)
    else (t, [])

/-- Modelled from the spec: `writeChildren` (missing from src/) — same
sequential stop-on-first-failure delegation as `readChildren`, on the
writing token. -/
def writeChildren : List Child → WToken → WToken × List Event
  | [], t => (t, [])
  | c :: cs, t =>
    if t.Ok then
      let r := writeChildren cs (c.writeF t)
      (r.1, Event.childWrite c.id :: r.2)
    else (t, [])

/-- Modelled from the spec: `sortChildrenToRead` (missing from src/)
computes a read-specific ordering of the children by a sort key
appropriate to parsing. -/
def sortChildrenToRead (children : List Child) (_readingToken : RToken) : List Child :=
  List.insertionSort (fun c d => c.sortKey ≤ d.sortKey) children

/-- Modelled from the spec: `shuffleChildren` (missing from src/) reorders
the children randomly; the random source is made explicit as a list of
draws, each draw selecting the next element among the remaining ones. -/
def shuffleChildren : List Nat → List Child → List Child
  | _, [] => []
  | [], cs => cs
  | s :: rest, c :: cs =>
    let l := c :: cs
    let i := s % l.length
    l.get ⟨i, Nat.mod_lt _ (Nat.succ_pos _)⟩ :: shuffleChildren rest (l.eraseIdx i)

/-- Modelled from the spec: `resetTokenChoppedIndexes` (missing from src/)
invalidates the previously computed final value and its chopped-index
references. -/
def resetTokenChoppedIndexes (_st : NodeState) : NodeState :=
  { currentValue := none, tokenChoppedIndexes := [] }

/-- Modelled from the spec: `notifyBoundedVariables` (missing from src/)
broadcasts an event of the given kind, with an optional value argument, to
the bound variables; here it is recorded as a trace event. -/
def notifyBoundedVariables (kind : String) (value : Option (Option (List Nat))) : Event :=
  Event.notify kind value

/-- Body of `Agg.isDefined`'s loop (source lines 92-95): children are
examined in order and the first undefined child makes the node undefined;
the list of examined child ids is returned alongside the result. -/
def isDefinedAux : List Child → NToken → Bool × List Nat
  | [], _ => (true, [])
  | c :: cs, tok =>
    if c.isDefinedF tok then
      let r := isDefinedAux cs tok
      (r.1, c.id :: r.2)
    else (false, [c.id])

/-- Body of `Agg.isDefined` after the argument checks (source lines
91-97): with at least one child, every child is asked in order; with no
child the node is never defined. -/
def isDefinedBody (a : Agg) (tok : NToken) : Bool × List Nat :=
  if 0 < a.children.length then isDefinedAux a.children tok else (false, [])

/-- `Agg.isDefined` (source lines 79-97).  The `typeCheck` decorator
(modelled from the spec) accepts any processing token kind; an absent
token raises `TypeError`. -/
def Agg.isDefined (a : Agg) (processingToken : Option NToken) : Except TErr (Bool × List Nat) :=
  match processingToken with
  | none => .error .typeError
  | some tok => .ok (isDefinedBody a tok)

/-- Body of `Agg.read` after the argument checks (source lines 112-130):
with children, a mutable aggregate first reorders them with the
read-specific sort, a non-mutable one delegates in declaration order; with
no child the success flag is set false; on final success the bound
variables are notified with kind "read" and the node's current value. -/
def readBody (a : Agg) (st : NodeState) (t : RToken) : RToken × List Event :=
  let r :=
    if 0 < a.children.length then
      if a.mutable then readChildren (sortChildrenToRead a.children t) t
      else readChildren a.children t
    else ({ t with Ok := false }, [])
  if r.1.Ok then (r.1, r.2 ++ [notifyBoundedVariables "read" (some st.currentValue)])
  else r

/-- `Agg.read` (source lines 99-130).  The `typeCheck(VariableReadingToken)`
decorator (modelled from the spec) raises `TypeError` on a present token
that is not a reading token; an absent token raises `TypeError` at the
explicit check. -/
def Agg.read (a : Agg) (st : NodeState) (readingToken : Option NToken) :
    Except TErr (RToken × List Event) :=
  match readingToken with
  | some (.wt _) => .error .typeError
  | none => .error .typeError
  | some (.rt t) => .ok (readBody a st t)

/-- Body of `Agg.write` after the argument checks (source lines 145-166):
first, unconditionally, the chopped indexes and final value are reset;
with children, a mutable aggregate shuffles them first, a non-mutable one
delegates in declaration order; with no child the success flag is set
false; on final success the bound variables are notified with kind
"write" and no value argument. -/
def writeBody (a : Agg) (st : NodeState) (seeds : List Nat) (t : WToken) :
    NodeState × WToken × List Event :=
  let st1 := resetTokenChoppedIndexes st
  let r :=
    if 0 < a.children.length then
      if a.mutable then writeChildren (shuffleChildren seeds a.children) t
      else writeChildren a.children t
    else ({ t with Ok := false }, [])
  if r.1.Ok then (st1, r.1, Event.resetIndexes :: (r.2 ++ [notifyBoundedVariables "write" none]))
  else (st1, r.1, Event.resetIndexes :: r.2)

/-- `Agg.write` (source lines 132-166).  The `typeCheck(VariableWritingToken)`
decorator (modelled from the spec) raises `TypeError` on a present token
that is not a writing token; an absent token raises `TypeError` at the
explicit check. -/
def Agg.write (a : Agg) (st : NodeState) (seeds : List Nat) (writingToken : Option NToken) :
    Except TErr (NodeState × WToken × List Event) :=
  match writingToken with
  | some (.rt _) => .error .typeError
  | none => .error .typeError
  | some (.wt t) => .ok (writeBody a st seeds t)

/-- `Agg.buildRegex` (source lines 168-184): derive each child's pattern
independently and let the pattern builder concatenate them in declaration
order. -/
def Agg.buildRegex (a : Agg) : NetzobRegex :=
  NetzobRegex.buildRegexForAggregateRegexes (a.children.map Child.buildRegex)

/-- Child-read ids appearing in a trace, in order. -/
def readIds (evs : List Event) : List Nat :=
  evs.filterMap fun e =>
    match e with
    | .childRead i => some i
    | _ => none

/-- Child-write ids appearing in a trace, in order. -/
def writeIds (evs : List Event) : List Nat :=
  evs.filterMap fun e =>
    match e with
    | .childWrite i => some i
    | _ => none

/-- A child that always succeeds and leaves tokens unchanged, for concrete
instantiations. -/
def childOkA : Child :=
  { id := 0, sortKey := 0, isDefinedF := fun _ => true,
    readF := fun t => t, writeF := fun w => w, buildRegex := ⟨fun s => s = []⟩ }

/-- A child whose read and write set the success flag false, for concrete
instantiations. -/
def childFailB : Child :=
  { id := 1, sortKey := 1, isDefinedF := fun _ => false,
    readF := fun t => { t with Ok := false }, writeF := fun w => { w with Ok := false },
    buildRegex := ⟨fun s => s = []⟩ }

/-- A further always-succeeding child, for concrete instantiations. -/
def childOkC : Child :=
  { id := 2, sortKey := 2, isDefinedF := fun _ => true,
    readF := fun t => t, writeF := fun w => w, buildRegex := ⟨fun s => s = []⟩ }

/-- A fresh reading token with the success flag true. -/
def rt0 : RToken := { Ok := true, position := 0, value := [] }

/-- A fresh writing token with the success flag true. -/
def wt0 : WToken := { Ok := true, value := [] }

/-- A fresh node state. -/
def st0 : NodeState := { currentValue := none, tokenChoppedIndexes := [] }

theorem readChildren_no_notify : ∀ (cs : List Child) (t : RToken),
    ((readChildren cs t).2).filter Event.isNotify = []
  | [], _ => rfl
  | c :: cs, t => by
    by_cases h : t.Ok = true
    · simp [readChildren, h, Event.isNotify, readChildren_no_notify cs (c.readF t)]
    · simp [readChildren, h]

theorem writeChildren_no_notify : ∀ (cs : List Child) (t : WToken),
    ((writeChildren cs t).2).filter Event.isNotify = []
  | [], _ => rfl
  | c :: cs, t => by
    by_cases h : t.Ok = true
    · simp [writeChildren, h, Event.isNotify, writeChildren_no_notify cs (c.writeF t)]
    · simp [writeChildren, h]

/-- Claim C2: an aggregate with zero children fails immediately at read and
at write — the success flag is set false, no child is delegated to (the
event trace holds no delegation), for both the mutable and the non-mutable
case. -/
theorem agg_no_children_read_write_fail :
    ∀ (m : Bool) (st : NodeState) (seeds : List Nat) (t : RToken) (w : WToken),
      Agg.read { children := [], mutable := m } st (some (NToken.rt t)) =
        Except.ok ({ t with Ok := false }, ([] : List Event))
      ∧ Agg.write { children := [], mutable := m } st seeds (some (NToken.wt w)) =
        Except.ok (resetTokenChoppedIndexes st, { w with Ok := false }, [Event.resetIndexes]) :=
  fun _ _ _ _ _ => ⟨rfl, rfl⟩

/-- Claim C8: pattern derivation on an aggregate with zero children does
not fail and yields the neutral pattern (matching only the empty string),
in contrast to read and write, for which zero children mean failure. -/
theorem agg_buildRegex_empty_children :
    ∀ (m : Bool) (s : List Nat) (st : NodeState) (seeds : List Nat) (t : RToken) (w : WToken),
      ((Agg.buildRegex { children := [], mutable := m }).Matches s ↔ s = [])
      ∧ Agg.read { children := [], mutable := m } st (some (NToken.rt t)) =
          Except.ok ({ t with Ok := false }, ([] : List Event))
      ∧ Agg.write { children := [], mutable := m } st seeds (some (NToken.wt w)) =
          Except.ok (resetTokenChoppedIndexes st, { w with Ok := false }, [Event.resetIndexes]) :=
  fun _ _ _ _ _ _ => ⟨Iff.rfl, rfl, rfl⟩

/-- Claim C9: passed an absent token, each of isDefined, read and write
raises TypeError immediately; the call aborts with the error and no state
is produced or mutated. -/
theorem agg_none_token_raises_typeError :
    ∀ (a : Agg) (st : NodeState) (seeds : List Nat),
      Agg.isDefined a none = Except.error TErr.typeError
      ∧ Agg.read a st none = Except.error TErr.typeError
      ∧ Agg.write a st seeds none = Except.error TErr.typeError :=
  fun _ _ _ => ⟨rfl, rfl, rfl⟩

/-- Claim C10: read raises TypeError on a present token that is not a
reading token, write raises TypeError on a present token that is not a
writing token — in both cases before any state mutation — while isDefined
accepts both processing-token kinds. -/
theorem agg_token_kind_enforcement :
    ∀ (a : Agg) (st : NodeState) (seeds : List Nat) (t : RToken) (w : WToken),
      Agg.read a st (some (NToken.wt w)) = Except.error TErr.typeError
      ∧ Agg.write a st seeds (some (NToken.rt t)) = Except.error TErr.typeError
      ∧ Agg.isDefined a (some (NToken.rt t)) = Except.ok (isDefinedBody a (NToken.rt t))
      ∧ Agg.isDefined a (some (NToken.wt w)) = Except.ok (isDefinedBody a (NToken.wt w)) :=
  fun _ _ _ _ _ => ⟨rfl, rfl, rfl, rfl⟩

theorem isDefinedAux_eq (tok : NToken) : ∀ cs : List Child,
    isDefinedAux cs tok =
      (cs.all fun c => c.isDefinedF tok,
       ((cs.takeWhile fun c => c.isDefinedF tok).map Child.id)
         ++ ((cs.dropWhile fun c => c.isDefinedF tok).take 1).map Child.id)
  | [] => rfl
  | c :: cs => by
    by_cases h : c.isDefinedF tok = true
    · simp [isDefinedAux, h, isDefinedAux_eq tok cs, List.takeWhile_cons, List.dropWhile_cons]
    · simp [isDefinedAux, h, List.takeWhile_cons, List.dropWhile_cons]

theorem perm_all_eq {l1 l2 : List Child} (p : Child → Bool) (h : List.Perm l1 l2) :
    l1.all p = l2.all p := by
  apply Bool.coe_iff_coe.mp
  simp only [List.all_eq_true]
  exact ⟨fun hx c hc => hx c (h.mem_iff.mpr hc), fun hx c hc => hx c (h.mem_iff.mp hc)⟩

/-- Claim C3: for a present processing token, isDefined returns true iff
the aggregate has at least one child and every child reports itself
defined under that token; children are examined in order and examination
stops at the first undefined child (the examined ids are the defined
prefix followed by the first undefined child, if any); the boolean result
is invariant under permutation of the children. -/
theorem agg_isDefined_spec :
    (∀ (a : Agg) (tok : NToken),
        Agg.isDefined a (some tok) =
          Except.ok
            ((!a.children.isEmpty) && (a.children.all fun c => c.isDefinedF tok),
             ((a.children.takeWhile fun c => c.isDefinedF tok).map Child.id)
               ++ ((a.children.dropWhile fun c => c.isDefinedF tok).take 1).map Child.id))
    ∧ (∀ (a : Agg) (tok : NToken),
        ((!a.children.isEmpty) && (a.children.all fun c => c.isDefinedF tok)) = true ↔
          a.children ≠ [] ∧ ∀ c ∈ a.children, c.isDefinedF tok = true)
    ∧ (∀ (a1 a2 : Agg) (tok : NToken), List.Perm a1.children a2.children →
        Except.map Prod.fst (Agg.isDefined a1 (some tok)) =
          Except.map Prod.fst (Agg.isDefined a2 (some tok))) := by
  have hmain : ∀ (a : Agg) (tok : NToken),
      Agg.isDefined a (some tok) =
        Except.ok
          ((!a.children.isEmpty) && (a.children.all fun c => c.isDefinedF tok),
           ((a.children.takeWhile fun c => c.isDefinedF tok).map Child.id)
             ++ ((a.children.dropWhile fun c => c.isDefinedF tok).take 1).map Child.id) := by
    intro a tok
    cases hch : a.children with
    | nil => simp [Agg.isDefined, isDefinedBody, hch]
    | cons c cs => simp [Agg.isDefined, isDefinedBody, hch, isDefinedAux_eq]
  refine ⟨hmain, ?_, ?_⟩
  · intro a tok
    simp [List.all_eq_true, List.isEmpty_iff]
  · intro a1 a2 tok h
    rw [hmain a1 tok, hmain a2 tok]
    simp only [Except.map]
    have hall := perm_all_eq (fun c => c.isDefinedF tok) h
    have hlen := h.length_eq
    have hemp : a1.children.isEmpty = a2.children.isEmpty := by
      cases h1 : a1.children with
      | nil => cases h2 : a2.children with
        | nil => rfl
        | cons d ds => rw [h1, h2] at hlen; simp at hlen
      | cons c cs => cases h2 : a2.children with
        | nil => rw [h1, h2] at hlen; simp at hlen
        | cons d ds => rfl
    rw [hall, hemp]

/-- Witness for C3 at concrete children: two concrete aggregates whose
child lists are a transposition of one another give the same boolean
result. -/
theorem agg_isDefined_spec_witness :
    List.Perm [childOkA, childFailB] [childFailB, childOkA]
    ∧ Except.map Prod.fst
        (Agg.isDefined { children := [childOkA, childFailB], mutable := false }
          (some (NToken.rt rt0))) =
      Except.map Prod.fst
        (Agg.isDefined { children := [childFailB, childOkA], mutable := false }
          (some (NToken.rt rt0))) :=
  ⟨List.Perm.swap childFailB childOkA [],
   agg_isDefined_spec.2.2 { children := [childOkA, childFailB], mutable := false }
     { children := [childFailB, childOkA], mutable := false } (NToken.rt rt0)
     (List.Perm.swap childFailB childOkA [])⟩

/-- Claim C4: a read or write ending with the success flag true triggers
exactly one bound-variable notification — kind "read" carrying the node's
current value for read, kind "write" with no value for write; a read or
write ending with the flag false triggers zero notifications. -/
theorem agg_notification_iff_success :
    (∀ (a : Agg) (st : NodeState) (t : RToken),
        Agg.read a st (some (NToken.rt t)) = Except.ok (readBody a st t)
        ∧ ((readBody a st t).2).filter Event.isNotify =
            (if (readBody a st t).1.Ok then [Event.notify "read" (some st.currentValue)] else []))
    ∧ (∀ (a : Agg) (st : NodeState) (seeds : List Nat) (t : WToken),
        Agg.write a st seeds (some (NToken.wt t)) = Except.ok (writeBody a st seeds t)
        ∧ ((writeBody a st seeds t).2.2).filter Event.isNotify =
            (if (writeBody a st seeds t).2.1.Ok then [Event.notify "write" none] else [])) := by
  constructor
  · intro a st t
    refine ⟨rfl, ?_⟩
    unfold readBody
    by_cases hc : 0 < a.children.length
    · by_cases hm : a.mutable = true
      · simp only [hc, hm, if_true]
        by_cases hok : (readChildren (sortChildrenToRead a.children t) t).1.Ok = true
        · simp [hok, List.filter_append, readChildren_no_notify, notifyBoundedVariables,
            Event.isNotify]
        · simp [hok, readChildren_no_notify]
      · simp only [hc, hm, if_true, Bool.false_eq_true, if_false]
        by_cases hok : (readChildren a.children t).1.Ok = true
        · simp [hok, List.filter_append, readChildren_no_notify, notifyBoundedVariables,
            Event.isNotify]
        · simp [hok, readChildren_no_notify]
    · simp [hc]
  · intro a st seeds t
    refine ⟨rfl, ?_⟩
    unfold writeBody
    by_cases hc : 0 < a.children.length
    · by_cases hm : a.mutable = true
      · simp only [hc, hm, if_true]
        by_cases hok : (writeChildren (shuffleChildren seeds a.children) t).1.Ok = true
        · simp [hok, List.filter_append, writeChildren_no_notify, notifyBoundedVariables,
            Event.isNotify]
        · simp [hok, writeChildren_no_notify, Event.isNotify]
      · simp only [hc, hm, if_true, Bool.false_eq_true, if_false]
        by_cases hok : (writeChildren a.children t).1.Ok = true
        · simp [hok, List.filter_append, writeChildren_no_notify, notifyBoundedVariables,
            Event.isNotify]
        · simp [hok, writeChildren_no_notify, Event.isNotify]
    · simp [hc, Event.isNotify]

/-- Claim C7: for every aggregate and present writing token, write's first
action after the argument checks is the unconditional reset of the
previously computed final value and chopped-index references — the first
trace event is the reset, before any child write, regardless of children,
mutability or the outcome, and the resulting node state is the reset
state. -/
theorem agg_write_resets_before_children :
    ∀ (a : Agg) (st : NodeState) (seeds : List Nat) (t : WToken),
      Agg.write a st seeds (some (NToken.wt t)) = Except.ok (writeBody a st seeds t)
      ∧ (writeBody a st seeds t).2.2.head? = some Event.resetIndexes
      ∧ (writeBody a st seeds t).1 = resetTokenChoppedIndexes st := by
  intro a st seeds t
  refine ⟨rfl, ?_, ?_⟩ <;>
    · unfold writeBody
      by_cases hc : 0 < a.children.length
      · by_cases hm : a.mutable = true
        · by_cases hok : (writeChildren (shuffleChildren seeds a.children) t).1.Ok = true <;>
            simp [hc, hm, hok]
        · by_cases hok : (writeChildren a.children t).1.Ok = true <;> simp [hc, hm, hok]
      · simp [hc]

/-- Claim C1: during a read, children are delegated to sequentially
against the same token and no child is attempted once the success flag is
false; in particular, for an aggregate with children [A, B, C] where A
succeeds and B fails, the resulting token is exactly B's output on A's
output (C's read is never applied), the trace holds only the delegations
to A and B, and the reported success is false. -/
theorem agg_read_stop_on_failure :
    (∀ (cs : List Child) (t : RToken), t.Ok = false → readChildren cs t = (t, []))
    ∧ (∀ (A B C : Child) (st : NodeState) (t : RToken),
        t.Ok = true → (A.readF t).Ok = true → (B.readF (A.readF t)).Ok = false →
        Agg.read { children := [A, B, C], mutable := false } st (some (NToken.rt t)) =
          Except.ok (B.readF (A.readF t),
            [Event.childRead A.id, Event.childRead B.id])) := by
  constructor
  · intro cs t h
    cases cs with
    | nil => rfl
    | cons c cs => simp [readChildren, h]
  · intro A B C st t h1 h2 h3
    simp [Agg.read, readBody, readChildren, h1, h2, h3]

/-- Witness for C1 at concrete children: the first child leaves the token
unchanged, the second sets the flag false, the third is never applied. -/
theorem agg_read_stop_on_failure_witness :
    rt0.Ok = true
    ∧ (childOkA.readF rt0).Ok = true
    ∧ (childFailB.readF (childOkA.readF rt0)).Ok = false
    ∧ Agg.read { children := [childOkA, childFailB, childOkC], mutable := false } st0
        (some (NToken.rt rt0)) =
      Except.ok (childFailB.readF (childOkA.readF rt0),
        [Event.childRead childOkA.id, Event.childRead childFailB.id]) :=
  ⟨rfl, rfl, rfl,
   agg_read_stop_on_failure.2 childOkA childFailB childOkC st0 rt0 rfl rfl rfl⟩

theorem readChildren_ids : ∀ (cs : List Child) (t : RToken),
    ∃ k, readIds (readChildren cs t).2 = (cs.map Child.id).take k
  | [], _ => ⟨0, rfl⟩
  | c :: cs, t => by
    by_cases h : t.Ok = true
    · obtain ⟨k, hk⟩ := readChildren_ids cs (c.readF t)
      exact ⟨k + 1, by simp [readChildren, h, readIds, List.filterMap_cons] at hk ⊢; exact hk⟩
    · exact ⟨0, by simp [readChildren, h, readIds]⟩

theorem writeChildren_ids : ∀ (cs : List Child) (t : WToken),
    ∃ k, writeIds (writeChildren cs t).2 = (cs.map Child.id).take k
  | [], _ => ⟨0, rfl⟩
  | c :: cs, t => by
    by_cases h : t.Ok = true
    · obtain ⟨k, hk⟩ := writeChildren_ids cs (c.writeF t)
      exact ⟨k + 1, by simp [writeChildren, h, writeIds, List.filterMap_cons] at hk ⊢; exact hk⟩
    · exact ⟨0, by simp [writeChildren, h, writeIds]⟩

theorem readIds_append_notify (evs : List Event) (v : Option (Option (List Nat))) :
    readIds (evs ++ [notifyBoundedVariables "read" v]) = readIds evs := by
  simp [readIds, List.filterMap_append, notifyBoundedVariables]

theorem writeIds_append_notify (evs : List Event) (v : Option (Option (List Nat))) :
    writeIds (evs ++ [notifyBoundedVariables "write" v]) = writeIds evs := by
  simp [writeIds, List.filterMap_append, notifyBoundedVariables]

theorem get_cons_eraseIdx_perm : ∀ (l : List Child) (i : Nat) (h : i < l.length),
    List.Perm (l.get ⟨i, h⟩ :: l.eraseIdx i) l
  | _ :: _, 0, _ => List.Perm.refl _
  | c :: cs, i + 1, h =>
    ((List.Perm.swap c ((c :: cs).get ⟨i + 1, h⟩) ((cs.eraseIdx i))).trans
      (List.Perm.cons c (get_cons_eraseIdx_perm cs i (Nat.lt_of_succ_lt_succ h))))

theorem shuffleChildren_perm : ∀ (seeds : List Nat) (cs : List Child),
    List.Perm (shuffleChildren seeds cs) cs := by
  intro seeds
  induction seeds with
  | nil =>
    intro cs
    cases cs with
    | nil => exact List.Perm.refl _
    | cons c cs => exact List.Perm.refl _
  | cons s rest ih =>
    intro cs
    cases cs with
    | nil => exact List.Perm.refl _
    | cons c cs =>
      simp only [shuffleChildren]
      exact ((ih _).cons _).trans
        (get_cons_eraseIdx_perm (c :: cs) (s % (c :: cs).length)
          (Nat.mod_lt _ (Nat.succ_pos _)))

/-- Claim C5: a non-mutable aggregate processes children at read and at
write exactly in declaration order (the delegated ids form an in-order
prefix of the declared ids) and write output is independent of the random
draws, so repeated calls with identical inputs behave identically; a
mutable aggregate processes read via the read-specific sort and write via
the shuffle, each an in-order prefix of a reordering that is a permutation
of the children — no child dropped or duplicated. -/
theorem agg_processing_order :
    (∀ (a : Agg) (st : NodeState) (t : RToken), a.mutable = false →
        ∃ k, readIds (readBody a st t).2 = (a.children.map Child.id).take k)
    ∧ (∀ (a : Agg) (st : NodeState) (seeds : List Nat) (t : WToken), a.mutable = false →
        ∃ k, writeIds (writeBody a st seeds t).2.2 = (a.children.map Child.id).take k)
    ∧ (∀ (a : Agg) (st : NodeState) (s1 s2 : List Nat) (tok : Option NToken),
        a.mutable = false → Agg.write a st s1 tok = Agg.write a st s2 tok)
    ∧ (∀ (a : Agg) (st : NodeState) (t : RToken), a.mutable = true →
        ∃ k, readIds (readBody a st t).2 = ((sortChildrenToRead a.children t).map Child.id).take k)
    ∧ (∀ (a : Agg) (st : NodeState) (seeds : List Nat) (t : WToken), a.mutable = true →
        ∃ k, writeIds (writeBody a st seeds t).2.2 =
          ((shuffleChildren seeds a.children).map Child.id).take k)
    ∧ (∀ (children : List Child) (t : RToken),
        List.Perm (sortChildrenToRead children t) children)
    ∧ (∀ (seeds : List Nat) (children : List Child),
        List.Perm (shuffleChildren seeds children) children) := by
  refine ⟨?_, ?_, ?_, ?_, ?_, ?_, ?_⟩
  · intro a st t hm
    unfold readBody
    by_cases hc : 0 < a.children.length
    · simp only [hc, hm, if_true, Bool.false_eq_true, if_false]
      obtain ⟨k, hk⟩ := readChildren_ids a.children t
      by_cases hok : (readChildren a.children t).1.Ok = true
      · exact ⟨k, by simp [hok, readIds_append_notify, hk]⟩
      · exact ⟨k, by simp [hok, hk]⟩
    · exact ⟨0, by simp [hc, readIds]⟩
  · intro a st seeds t hm
    unfold writeBody
    by_cases hc : 0 < a.children.length
    · simp only [hc, hm, if_true, Bool.false_eq_true, if_false]
      obtain ⟨k, hk⟩ := writeChildren_ids a.children t
      by_cases hok : (writeChildren a.children t).1.Ok = true
      · exact ⟨k, by simp [hok, writeIds, List.filterMap_cons, List.filterMap_append,
          notifyBoundedVariables] at hk ⊢; exact hk⟩
      · exact ⟨k, by simp [hok, writeIds, List.filterMap_cons] at hk ⊢; exact hk⟩
    · exact ⟨0, by simp [hc, writeIds, List.filterMap_cons]⟩
  · intro a st s1 s2 tok hm
    cases tok with
    | none => rfl
    | some nt =>
      cases nt with
      | rt t => rfl
      | wt t => simp [Agg.write, writeBody, hm]
  · intro a st t hm
    unfold readBody
    by_cases hc : 0 < a.children.length
    · simp only [hc, hm, if_true]
      obtain ⟨k, hk⟩ := readChildren_ids (sortChildrenToRead a.children t) t
      by_cases hok : (readChildren (sortChildrenToRead a.children t) t).1.Ok = true
      · exact ⟨k, by simp [hok, readIds_append_notify, hk]⟩
      · exact ⟨k, by simp [hok, hk]⟩
    · exact ⟨0, by simp [hc, readIds]⟩
  · intro a st seeds t hm
    unfold writeBody
    by_cases hc : 0 < a.children.length
    · simp only [hc, hm, if_true]
      obtain ⟨k, hk⟩ := writeChildren_ids (shuffleChildren seeds a.children) t
      by_cases hok : (writeChildren (shuffleChildren seeds a.children) t).1.Ok = true
      · exact ⟨k, by simp [hok, writeIds, List.filterMap_cons, List.filterMap_append,
          notifyBoundedVariables] at hk ⊢; exact hk⟩
      · exact ⟨k, by simp [hok, writeIds, List.filterMap_cons] at hk ⊢; exact hk⟩
    · exact ⟨0, by simp [hc, writeIds, List.filterMap_cons]⟩
  · intro children t
    exact List.perm_insertionSort _ _
  · exact shuffleChildren_perm

/-- Witness for C5 at concrete inputs: a concrete non-mutable aggregate
reads in declaration order and writes independently of the random draws;
a concrete shuffle is a permutation. -/
theorem agg_processing_order_witness :
    (∃ k, readIds (readBody { children := [childOkA, childFailB], mutable := false } st0 rt0).2 =
        ([childOkA, childFailB].map Child.id).take k)
    ∧ Agg.write { children := [childOkA, childFailB], mutable := false } st0 [3]
        (some (NToken.wt wt0)) =
      Agg.write { children := [childOkA, childFailB], mutable := false } st0 [7]
        (some (NToken.wt wt0))
    ∧ List.Perm (shuffleChildren [1] [childOkA, childFailB]) [childOkA, childFailB] :=
  ⟨agg_processing_order.1 { children := [childOkA, childFailB], mutable := false } st0 rt0 rfl,
   agg_processing_order.2.2.1 { children := [childOkA, childFailB], mutable := false } st0
     [3] [7] (some (NToken.wt wt0)) rfl,
   agg_processing_order.2.2.2.2.2.2 [1] [childOkA, childFailB]⟩

theorem concatLang_flatten : ∀ (Ls : List (List Nat → Prop)) (s : List Nat),
    concatLang Ls s ↔
      ∃ parts : List (List Nat), List.Forall₂ (fun L p => L p) Ls parts ∧ s = parts.flatten := by
  intro Ls
  induction Ls with
  | nil =>
    intro s
    simp [concatLang, List.forall₂_nil_left_iff]
  | cons L Ls ih =>
    intro s
    constructor
    · rintro ⟨u, v, rfl, hu, hv⟩
      obtain ⟨parts, hps, rfl⟩ := (ih v).mp hv
      exact ⟨u :: parts, List.Forall₂.cons hu hps, by simp⟩
    · rintro ⟨parts, hps, rfl⟩
      rcases List.forall₂_cons_left_iff.mp hps with ⟨u, parts2, hu, hps2, rfl⟩
      exact ⟨u, parts2.flatten, by simp, hu, (ih _).mpr ⟨parts2, hps2, rfl⟩⟩

/-- Claim C6: pattern derivation is a pure function of the current
children — it never consults the mutable flag — and the derived pattern
matches exactly the strings that split into consecutive parts matched by
the children's patterns in declaration order. -/
theorem agg_buildRegex_concat :
    (∀ (ch : List Child) (m1 m2 : Bool),
        Agg.buildRegex { children := ch, mutable := m1 } =
          Agg.buildRegex { children := ch, mutable := m2 })
    ∧ (∀ (a : Agg) (s : List Nat),
        (Agg.buildRegex a).Matches s ↔
          ∃ parts : List (List Nat),
            List.Forall₂ (fun c p => (Child.buildRegex c).Matches p) a.children parts
            ∧ s = parts.flatten) := by
  constructor
  · intro ch m1 m2
    rfl
  · intro a s
    show concatLang ((a.children.map Child.buildRegex).map NetzobRegex.Matches) s ↔ _
    rw [concatLang_flatten]
    constructor
    · rintro ⟨parts, hps, rfl⟩
      rw [List.map_map, List.forall₂_map_left_iff] at hps
      exact ⟨parts, by simpa [Function.comp] using hps, rfl⟩
    · rintro ⟨parts, hps, rfl⟩
      refine ⟨parts, ?_, rfl⟩
      rw [List.map_map, List.forall₂_map_left_iff]
      simpa [Function.comp] using hps
